import Mathlib

/-!
Verification of the SimpleDB storage engine (krdlab/simpledb, Rust).

Each definition in this file is a shallow embedding of a function of the
Rust source, with the source file and lines named in its doc comment.
Machine integers (i32, i64) are modeled as Int; byte arrays as List Nat;
fallible operations as Except/Option.  Stateful code is modeled by explicit
state passing.
-/

set_option maxRecDepth 4000

namespace SimpleDB

/-- Block identifier (src/src/file/block_id.rs): a pair of file name and
block number. -/
structure BlockId where
  filename : String
  blknum : Int
deriving DecidableEq, Repr

/-! ### Hash index search cost (claim C9)

Two implementations exist in the source: the draft one in
src/src/metadata/index_mgr.rs and the one in src/src/index/hash.rs. -/

namespace IndexMgr

/-- NUM_BUCKETS from src/src/metadata/index_mgr.rs line 26. -/
def NUM_BUCKETS : Nat := 100

/-- HashIndex::search_cost from src/src/metadata/index_mgr.rs lines 35-37:
`num_blocks / HashIndex::NUM_BUCKETS` (Rust usize division truncates; the
`_rec_per_blk` argument is ignored). -/
def search_cost (num_blocks _rec_per_blk : Nat) : Nat :=
  num_blocks / NUM_BUCKETS

/-- IndexInfo::blocks_accessed from src/src/metadata/index_mgr.rs lines 89-93:
`rec_per_blk = block_size / slotsize; num_blocks = records / rec_per_blk;
HashIndex::search_cost(num_blocks, rec_per_blk)`. -/
def blocks_accessed (block_size slotsize records : Nat) : Nat :=
  let rec_per_blk := block_size / slotsize
  let num_blocks := records / rec_per_blk
  search_cost num_blocks rec_per_blk

end IndexMgr

namespace HashIdx

/-- HashIndex::search_cost from src/src/index/hash.rs lines 58-60:
`num_blocks / rpb` (divides by the records-per-block argument, not by the
bucket count). -/
def search_cost (num_blocks rpb : Nat) : Nat :=
  num_blocks / rpb

end HashIdx

/-! ### Lock table (claim C6)

From src/src/tx/lock_table.rs.  The map from blocks to lock values is the
`locks` HashMap; an absent entry reads as 0 via `get_lock_val`.  The
condition-variable wait loop is modeled by the decision the code takes on
the value that persists (the code waits while the blocking condition holds
and, if it still holds when the 10-second deadline passes, fails with
`LockAborted`; on a state where the condition does not hold it proceeds). -/

namespace LockTable

/-- A lock-table state: the `locks: HashMap<BlockId, i32>` field; `none`
means the block has no entry. -/
def LockMap := BlockId → Option Int

/-- get_lock_val from lock_table.rs lines 114-119: the entry's value, or 0
if absent. -/
def get_lock_val (locks : LockMap) (blk : BlockId) : Int :=
  (locks blk).getD 0

/-- has_xlock from lock_table.rs lines 106-108. -/
def has_xlock (locks : LockMap) (blk : BlockId) : Bool :=
  get_lock_val locks blk < 0

/-- has_other_slocks from lock_table.rs lines 110-112. -/
def has_other_slocks (locks : LockMap) (blk : BlockId) : Bool :=
  get_lock_val locks blk > 1

/-- HashMap::insert. -/
def insertL (locks : LockMap) (blk : BlockId) (v : Int) : LockMap :=
  fun b => if b = blk then some v else locks b

/-- HashMap::remove. -/
def removeL (locks : LockMap) (blk : BlockId) : LockMap :=
  fun b => if b = blk then none else locks b

/-- LockTableError from lock_table.rs lines 22-26. -/
inductive LockErr where
  | LockAborted (blk : BlockId)
deriving DecidableEq

/-- slock from lock_table.rs lines 38-61: if the block is exclusively
locked (and stays so through the wait), fail; otherwise insert
`get_lock_val + 1`. -/
def slock (locks : LockMap) (blk : BlockId) : Except LockErr LockMap :=
  if has_xlock locks blk then
    .error (.LockAborted blk)
  else
    .ok (insertL locks blk (get_lock_val locks blk + 1))

/-- xlock from lock_table.rs lines 63-85: if some other transaction also
holds a shared lock (entry > 1, persisting through the wait), fail;
otherwise set the entry to -1. -/
def xlock (locks : LockMap) (blk : BlockId) : Except LockErr LockMap :=
  if has_other_slocks locks blk then
    .error (.LockAborted blk)
  else
    .ok (insertL locks blk (-1))

/-- unlock from lock_table.rs lines 87-96: decrement an entry greater
than 1; otherwise remove the entry and notify all waiters.  The returned
Bool records whether `notify_all` was called. -/
def unlock (locks : LockMap) (blk : BlockId) : LockMap × Bool :=
  let v := get_lock_val locks blk
  if v > 1 then (insertL locks blk (v - 1), false)
  else (removeL locks blk, true)

end LockTable

/-! ### Record page (claims C7, C10)

From src/src/record/record_page.rs.  A record page addresses one block
through a transaction; the block's contents are modeled as the function
`store : Nat → Int` giving the i32 value the transaction reads at each byte
offset (`tx.get_i32(block, off)`), and writes as pointwise updates.  Slot
flags: 0 = Empty, 1 = Used (SlotFlag, lines 28-38). -/

namespace RecordPage

/-- RecordPageError::IllegalSlot from record_page.rs lines 14-24. -/
inductive RPError where
  | IllegalSlot (slot : Int)
deriving DecidableEq

/-- slot_offset from record_page.rs lines 51-58: `slot * slotsize` for a
non-negative slot, an IllegalSlot error otherwise. -/
def slot_offset (slotsize : Nat) (slot : Int) : Except RPError Nat :=
  if 0 ≤ slot then .ok (slot.toNat * slotsize) else .error (.IllegalSlot slot)

/-- is_valid_slot from record_page.rs lines 60-63:
`slot_offset(slot + 1).map_or(false, |o| o <= tx.block_size())`. -/
def is_valid_slot (block_size slotsize : Nat) (slot : Int) : Bool :=
  match slot_offset slotsize (slot + 1) with
  | .ok o => decide (o ≤ block_size)
  | .error _ => false

/-- The body of the while loop of search_after (record_page.rs lines
186-195): scan candidate slots upward while they are valid, returning the
first whose flag word equals the target flag.  The loop variable `next` is
non-negative in every call (it starts at `slot + 1` with `slot ≥ 0`, or at
0), so it is carried as a Nat; the fuel is an upper bound on the number of
iterations, which the loop itself limits through is_valid_slot. -/
def search_from (block_size slotsize : Nat) (store : Nat → Int) (flag : Int) :
    Nat → Nat → Option Nat
  | 0, _ => none
  | fuel + 1, next =>
    if is_valid_slot block_size slotsize (next : Int) then
      if store (next * slotsize) = flag then some next
      else search_from block_size slotsize store flag fuel (next + 1)
    else none

/-- search_after from record_page.rs lines 178-197: start at `slot + 1`
(or at 0 when no slot is given) and scan for the flag. -/
def search_after (block_size slotsize : Nat) (store : Nat → Int) (flag : Int)
    (slot : Option Int) : Option Nat :=
  let start : Nat := match slot with
    | some s => (s + 1).toNat
    | none => 0
  search_from block_size slotsize store flag (block_size + 1) start

/-- next_after from record_page.rs lines 148-154: search_after with the
Used flag. -/
def next_after (block_size slotsize : Nat) (store : Nat → Int)
    (slot : Option Int) : Option Nat :=
  search_after block_size slotsize store 1 slot

/-- set_flag from record_page.rs lines 169-176: write the flag word at the
slot's offset (the write goes through tx.set_i32 with logging). -/
def set_flag (slotsize : Nat) (store : Nat → Int) (slot : Nat) (flag : Int) :
    Nat → Int :=
  fun o => if o = slot * slotsize then flag else store o

/-- insert_after from record_page.rs lines 156-167: search for an Empty
slot; if found, set its flag to Used and return its index together with the
updated block contents. -/
def insert_after (block_size slotsize : Nat) (store : Nat → Int)
    (slot : Option Int) : Option (Nat × (Nat → Int)) :=
  match search_after block_size slotsize store 0 slot with
  | some newslot => some (newslot, set_flag slotsize store newslot 1)
  | none => none

/-- RecordPage::delete from record_page.rs lines 120-122: set the slot's
flag to Empty (through slot_offset, so a negative slot is an error). -/
def delete (slotsize : Nat) (store : Nat → Int) (slot : Int) :
    Except RPError (Nat → Int) :=
  (slot_offset slotsize slot).map fun off =>
    fun o => if o = off then 0 else store o

end RecordPage

/-! ### Table scan delete (claim C10)

From src/src/record/table_scan.rs.  Only the pieces delete() touches are
modeled: the cursor (`current_slot : Option<i32>`) and the current block's
contents (as in RecordPage above). -/

namespace TableScan

/-- The TableScan fields relevant to delete(): current_slot (table_scan.rs
line 25) and the current record page's block contents. -/
structure State where
  currentSlot : Option Int
  store : Nat → Int

/-- TableScan::delete from table_scan.rs lines 169-175: if the cursor is on
a slot, empty that slot via RecordPage::delete; otherwise return Ok without
touching anything. -/
def delete (slotsize : Nat) (ts : State) : Except RecordPage.RPError State :=
  match ts.currentSlot with
  | some slot => (RecordPage.delete slotsize ts.store slot).map fun st =>
      { ts with store := st }
  | none => .ok ts

end TableScan

/-! ### Buffer LSN stamping and WAL flush ordering (claim C1)

From src/src/buffer_mgr.rs and src/src/log_mgr.rs.  For this claim only the
log sequence numbers matter, not the page contents: the log manager is its
`latest_lsn` / `last_saved_lsn` pair, where `last_saved_lsn` is the LSN
through which the log file is on disk (LogMgr::_flush writes the log page
and sets `last_saved_lsn = latest_lsn`, log_mgr.rs lines 117-122), and the
buffer is its `(txnum, lsn)` stamp. -/

namespace WAL

/-- The LogMgrData LSN counters (log_mgr.rs lines 39-55); both start at 0. -/
structure LMState where
  latest_lsn : Int
  last_saved_lsn : Int
deriving DecidableEq, Repr

/-- The initial counters of LogMgrData::new (log_mgr.rs lines 46-55). -/
def LMState.init : LMState := { latest_lsn := 0, last_saved_lsn := 0 }

/-- LogMgr::apppend's effect on the counters (log_mgr.rs lines 89-107):
`latest_lsn += 1` and the new value is returned as the record's LSN. -/
def lmAppend (lm : LMState) : Int × LMState :=
  (lm.latest_lsn + 1, { lm with latest_lsn := lm.latest_lsn + 1 })

/-- LogMgr::flush from log_mgr.rs lines 109-115: if `lsn >= last_saved_lsn`
write the log page to disk (_flush, which sets last_saved_lsn = latest_lsn);
otherwise do nothing. -/
def lmFlush (lm : LMState) (lsn : Int) : LMState :=
  if lsn ≥ lm.last_saved_lsn then { lm with last_saved_lsn := lm.latest_lsn }
  else lm

/-- The Buffer fields relevant to WAL ordering (buffer_mgr.rs lines 38-46). -/
structure Buffer where
  txnum : Int
  lsn : Int
deriving DecidableEq, Repr

/-- Buffer::new from buffer_mgr.rs lines 49-60: txnum = -1, lsn = -1. -/
def Buffer.new : Buffer := { txnum := -1, lsn := -1 }

/-- Buffer::set_modified from buffer_mgr.rs lines 74-79, verbatim: the
txnum is always stored, but the lsn argument is stored only when the
buffer's PREVIOUS lsn was already non-negative
(`if self.lsn >= 0 { self.lsn = lsn; }`). -/
def Buffer.set_modified (b : Buffer) (txnum lsn : Int) : Buffer :=
  { txnum := txnum, lsn := if b.lsn ≥ 0 then lsn else b.lsn }

/-- Buffer::flush from buffer_mgr.rs lines 98-106: when the buffer is dirty
(txnum ≥ 0), call `lm.flush(self.lsn)`, then write the page to the data
file, then clear txnum.  The returned Bool records whether the data page
was written; `logOnDiskAtWrite` is the log manager's `last_saved_lsn` at
the moment of that data write (the LSN through which the log file is on
disk when the page hits the data file). -/
def Buffer.flush (b : Buffer) (lm : LMState) :
    Buffer × LMState × Bool :=
  if b.txnum ≥ 0 then
    let lm' := lmFlush lm b.lsn
    ({ b with txnum := -1 }, lm', true)
  else
    (b, lm, false)

/-- Transaction::set_i32 with ok_to_log = true (transaction.rs lines
181-198) as it affects the WAL state: the recovery manager appends a SETINT
record obtaining its LSN (recovery_mgr.rs lines 462-467), the new value is
applied to the page, and the buffer is stamped via set_modified(txnum, lsn).
Returns the LSN the transaction received. -/
def txSetI32Logged (txnum : Int) (b : Buffer) (lm : LMState) :
    Int × Buffer × LMState :=
  let (lsn, lm') := lmAppend lm
  (lsn, b.set_modified txnum lsn, lm')

end WAL

/-! ### File manager block I/O (claim C2)

From src/src/file_mgr.rs.  A file is its byte contents (List Nat, one Nat
per byte) plus the mode its cached handle was opened with:
FileMgrData::open_file (lines 127-137) opens a pre-existing file with
`.read(true).append(true)` — so every write on that handle goes to the end
of the file regardless of the preceding seek (O_APPEND) — and a file it
creates with `.read(true).write(true).create(true)`, where writes land at
the seek position.  Pages are byte lists; i32 values are big-endian 4-byte
sequences (file/byte_buffer.rs uses BE throughout). -/

namespace FileMgr

/-- Big-endian byte encoding of an i32 (two's complement). -/
def i32ToBytes (v : Int) : List Nat :=
  let n := (v % 4294967296).toNat
  [n / 16777216 % 256, n / 65536 % 256, n / 256 % 256, n % 256]

/-- Big-endian decoding of 4 bytes into an i32. -/
def bytesToI32 (bs : List Nat) : Int :=
  let n := bs.getD 0 0 * 16777216 + bs.getD 1 0 * 65536 +
    bs.getD 2 0 * 256 + bs.getD 3 0
  if n < 2147483648 then (n : Int) else (n : Int) - 4294967296

/-- Overwrite `bytes` into `data` starting at `pos`, zero-extending the
list if it is shorter than `pos` (a seek past EOF followed by a write). -/
def spliceAt (data : List Nat) (pos : Nat) (bytes : List Nat) : List Nat :=
  data.take pos ++ List.replicate (pos - data.length) 0 ++ bytes ++
    data.drop (pos + bytes.length)

/-- Page::set_i32 (file/page.rs lines 39-41): write the 4 big-endian bytes
of `v` at `off`. -/
def pageSetI32 (page : List Nat) (off : Nat) (v : Int) : List Nat :=
  spliceAt page off (i32ToBytes v)

/-- Page::get_i32 (file/page.rs lines 43-45): read 4 big-endian bytes at
`off`. -/
def pageGetI32 (page : List Nat) (off : Nat) : Int :=
  bytesToI32 ((page.drop off).take 4)

/-- The open mode FileMgrData::open_file chose for a cached handle. -/
inductive Mode where
  | appendMode
  | writeMode
deriving DecidableEq, Repr

/-- A file as the file manager sees it: its handle's mode and its bytes. -/
structure FMFile where
  mode : Mode
  data : List Nat
deriving DecidableEq, Repr

/-- FileMgrData::open_file from file_mgr.rs lines 127-137: a file that
exists on disk is opened with append mode; a missing one is created and
opened in write mode. -/
def open_file (onDisk : Option (List Nat)) : FMFile :=
  match onDisk with
  | some d => { mode := .appendMode, data := d }
  | none => { mode := .writeMode, data := [] }

/-- FileMgrData::write from file_mgr.rs lines 169-177: seek to
`block_number * blocksize` and write the page's bytes.  On a write-mode
handle the bytes land at the seek position; on an append-mode handle
(O_APPEND) they are appended at the end of the file, ignoring the seek. -/
def write (blocksize : Nat) (f : FMFile) (blknum : Nat) (page : List Nat) :
    FMFile :=
  match f.mode with
  | .writeMode => { f with data := spliceAt f.data (blknum * blocksize) page }
  | .appendMode => { f with data := f.data ++ page }

/-- FileMgrData::read from file_mgr.rs lines 159-167 with
FileChannel::read_to (lines 42-49): seek to `block_number * blocksize` and
fill the page; a short read leaves the zero-initialised remainder in place,
so the result is the block's bytes zero-filled to blocksize. -/
def read (blocksize : Nat) (f : FMFile) (blknum : Nat) : List Nat :=
  let chunk := (f.data.drop (blknum * blocksize)).take blocksize
  chunk ++ List.replicate (blocksize - chunk.length) 0

end FileMgr

/-! ### Log manager (claim C5)

From src/src/log_mgr.rs.  A log block is represented by its boundary (the
i32 stored at offset 0) together with the list of records it holds, newest
first: LogMgr::apppend writes each record length-prefixed at
`recpos = boundary - (len + 4)` and stores `recpos` as the new boundary
(lines 101-104), so within a block the newest record sits at the boundary
and each older record begins 4 + len bytes above the one after it.
LogIterator (lines 141-193) starts a block at `currentpos = boundary` and
advances by `4 + len` per record, so it reads exactly this list front to
back, and moves to the previous block when currentpos reaches blocksize. -/

namespace LogMgr

/-- One log block: the boundary word at offset 0 and the records packed
downward from the end of the block, listed newest first (the record at the
boundary first). -/
structure LogBlock where
  boundary : Int
  recs : List (List Nat)
deriving DecidableEq, Repr

/-- The log manager's state: the immutable earlier blocks of the log file
(oldest first; the current block's number is their count), the in-memory
tail page, and the LSN counters (LogMgrData, log_mgr.rs lines 39-44). -/
structure State where
  olderBlocks : List LogBlock
  page : LogBlock
  latest_lsn : Int
  last_saved_lsn : Int
deriving DecidableEq, Repr

/-- LogMgr::new on an empty log file (log_mgr.rs lines 57-79 with
append_new_block, lines 81-87): one fresh block whose boundary is the block
size. -/
def State.init (blocksize : Nat) : State :=
  { olderBlocks := []
    page := { boundary := (blocksize : Int), recs := [] }
    latest_lsn := 0
    last_saved_lsn := 0 }

/-- LogMgr::apppend from log_mgr.rs lines 89-107: with
`bytesneeded = len + 4`, if `boundary - bytesneeded < 4` flush the page,
append a new block and reset the boundary to the block size; then place the
record at `boundary - bytesneeded`, store that as the new boundary,
increment latest_lsn and return it. -/
def append (blocksize : Nat) (st : State) (rec : List Nat) : Int × State :=
  let boundary := st.page.boundary
  let bytesneeded : Int := (rec.length : Int) + 4
  let st :=
    if boundary - bytesneeded < 4 then
      { st with
          olderBlocks := st.olderBlocks ++ [st.page]
          page := { boundary := (blocksize : Int), recs := [] }
          last_saved_lsn := st.latest_lsn }
    else st
  let recpos := st.page.boundary - bytesneeded
  let st :=
    { st with
        page := { boundary := recpos, recs := rec :: st.page.recs }
        latest_lsn := st.latest_lsn + 1 }
  (st.latest_lsn, st)

/-- Append a whole list of records in order, collecting the returned LSNs. -/
def appendAll (blocksize : Nat) (st : State) :
    List (List Nat) → List Int × State
  | [] => ([], st)
  | r :: rs =>
    let (lsn, st') := append blocksize st r
    let (lsns, st'') := appendAll blocksize st' rs
    (lsn :: lsns, st'')

/-- Whether an append to `st` starts a new block, i.e. grows the log file
(the `boundary - bytesneeded < 4` branch of apppend flushes the page and
calls append_new_block). -/
def startsNewBlock (st : State) (rec : List Nat) : Bool :=
  st.page.boundary - ((rec.length : Int) + 4) < 4

/-- The full output of LogMgr::reverse_iter (log_mgr.rs lines 124-193):
reverse_iter first flushes, so the iterator sees the current page as the
tail block; it yields that block's records from its boundary upward (newest
first), then moves block by block to block 0, reading each earlier block
the same way, and stops after block 0. -/
def iterAll (st : State) : List (List Nat) :=
  st.page.recs ++ (st.olderBlocks.reverse.map LogBlock.recs).flatten

end LogMgr

/-! ### Recovery manager (claims C3, C4)

From src/src/tx/recovery_mgr.rs.  Log records are modeled structurally (the
byte encoding through Page is bijective on the fields, recovery_mgr.rs
lines 79-91 parse it back); SETINT and SETSTRING records are merged into
one constructor carrying a tagged value, since their undo behaviour
(lines 310-319 and 405-414: re-pin the block, write the logged old value
with logging disabled, unpin) differs only in the value type.  A location
is a block plus a byte offset; the durable state reached through
Transaction::get/set is the function from locations to values. -/

namespace Recovery

/-- A (block, offset) location. -/
structure Loc where
  block : BlockId
  offset : Nat
deriving DecidableEq, Repr

/-- A stored value: the i32 of a SETINT or the string of a SETSTRING. -/
inductive Val where
  | i (v : Int)
  | s (v : String)
deriving DecidableEq, Repr

/-- The addressable state: what the transaction reads at each location. -/
def Store := Loc → Val

/-- Log records (recovery_mgr.rs, Op at lines 39-47 and the record structs):
CHECKPOINT, START(txnum), COMMIT(txnum), ROLLBACK(txnum), and
SETINT/SETSTRING(txnum, block, offset, old value) merged as setVal. -/
inductive LogRec where
  | checkpoint
  | start (txnum : Int)
  | commit (txnum : Int)
  | rollbackR (txnum : Int)
  | setVal (txnum : Int) (loc : Loc) (old : Val)
deriving DecidableEq, Repr

/-- LogRecord::tx_number: the record's txnum, with the CHECKPOINT dummy
value -1 (recovery_mgr.rs lines 110-112). -/
def LogRec.txNumber : LogRec → Int
  | .checkpoint => -1
  | .start t => t
  | .commit t => t
  | .rollbackR t => t
  | .setVal t _ _ => t

/-- LogRecord::undo: SETINT/SETSTRING write the logged old value back at
the record's location (via set_i32_for_recovery / set_string_for_recovery);
every other record's undo is a no-op (recovery_mgr.rs lines 114-116,
154-156, 194-196, 234-236, 310-319, 405-414). -/
def LogRec.undo (r : LogRec) (σ : Store) : Store :=
  match r with
  | .setVal _ loc old => fun l => if l = loc then old else σ l
  | _ => σ

/-- An event of the running system, as it affects store and log: a logged
write by some transaction (Transaction::set_i32/set_string with
ok_to_log = true), or the commit/rollback record a transaction appends when
it finishes.  START records of other transactions are not generated here:
do_rollback skips them (their txnum differs from the rolling-back
transaction's) and do_recover's undo of a START is a no-op, so they change
neither loop's result. -/
inductive Event where
  | write (txn : Int) (loc : Loc) (val : Val)
  | finish (txn : Int) (commit : Bool)
deriving DecidableEq, Repr

/-- Run a list of events from a store, producing the final store and the
log records appended, in log order.  A write appends a setVal record
carrying the OLD value read from the store (RecoveryMgr::set_i32 lines
462-467 and set_string lines 469-474 read the old value and log it; only
then is the new value applied to the page, transaction.rs lines 181-217).
A finish appends the COMMIT or ROLLBACK record and leaves the store
alone. -/
def runEvents (σ : Store) : List Event → Store × List LogRec
  | [] => (σ, [])
  | .write t loc v :: es =>
    let r0 := LogRec.setVal t loc (σ loc)
    let σ' : Store := fun l => if l = loc then v else σ l
    let (σf, L) := runEvents σ' es
    (σf, r0 :: L)
  | .finish t c :: es =>
    let r0 := if c then LogRec.commit t else LogRec.rollbackR t
    let (σf, L) := runEvents σ es
    (σf, r0 :: L)

/-- The while loop of RecoveryMgr::do_rollback (recovery_mgr.rs lines
476-489), applied to the reverse-ordered record list the log iterator
yields: skip records of other transactions; for this transaction's records,
stop at START, otherwise undo. -/
def doRollbackLoop (txnum : Int) (σ : Store) : List LogRec → Store
  | [] => σ
  | r :: rest =>
    if r.txNumber = txnum then
      if r = .start txnum then σ
      else doRollbackLoop txnum (r.undo σ) rest
    else doRollbackLoop txnum σ rest

/-- The while loop of RecoveryMgr::do_recover (recovery_mgr.rs lines
491-507), applied to the reverse-ordered record list: stop at CHECKPOINT;
push the txnum of each COMMIT/ROLLBACK onto `finished_txs`; undo every
other record whose txnum is not in `finished_txs`. -/
def doRecoverLoop (σ : Store) (finished : List Int) : List LogRec → Store
  | [] => σ
  | r :: rest =>
    if r = .checkpoint then σ
    else
      match r with
      | .commit t => doRecoverLoop σ (t :: finished) rest
      | .rollbackR t => doRecoverLoop σ (t :: finished) rest
      | _ =>
        if r.txNumber ∈ finished then doRecoverLoop σ finished rest
        else doRecoverLoop (r.undo σ) finished rest

/-- RecoveryMgr::rollback (recovery_mgr.rs lines 446-452) as it affects
store and log: run do_rollback over the reversed log, then (after
flush_all) append a ROLLBACK record and force the log. -/
def rollback (txnum : Int) (σ : Store) (log : List LogRec) :
    Store × List LogRec :=
  (doRollbackLoop txnum σ log.reverse, log ++ [.rollbackR txnum])

/-- RecoveryMgr::recover (recovery_mgr.rs lines 454-460) as it affects
store and log: run do_recover over the reversed log, then (after flush_all)
append a CHECKPOINT record and force the log. -/
def recover (σ : Store) (log : List LogRec) : Store × List LogRec :=
  (doRecoverLoop σ [] log.reverse, log ++ [.checkpoint])

/-- The transactions that appear in a finish event of the list (those whose
COMMIT or ROLLBACK record is in the generated log). -/
def finishedTxns : List Event → List Int
  | [] => []
  | .finish t _ :: es => t :: finishedTxns es
  | .write _ _ _ :: es => finishedTxns es

/-- Scan events forward, threading the store, and return the value the
store held immediately before the first write to `loc` by a transaction
satisfying `P` (none if no such write occurs). -/
def firstPWrite (P : Int → Bool) (σ : Store) (loc : Loc) :
    List Event → Option Val
  | [] => none
  | .write t l v :: es =>
    if P t ∧ l = loc then some (σ loc)
    else firstPWrite P (fun x => if x = l then v else σ x) loc es
  | .finish _ _ :: es => firstPWrite P σ loc es

/-- Well-formedness of an event list for recovery: once a transaction has
finished (its COMMIT/ROLLBACK record is in the log), it performs no further
writes.  Every log a real run produces has this shape. -/
def WF : List Event → Prop
  | [] => True
  | .write _ _ _ :: es => WF es
  | .finish t _ :: es => (∀ l v, Event.write t l v ∉ es) ∧ WF es

end Recovery

/-! ### B-tree index (claim C8)

From src/src/index/btree_page.rs, btree_leaf.rs, btree_dir.rs, btree.rs.
A B-tree block is its flag (offset 0), its record count (offset 4) and the
records of slots [0 .. num_records); a record is the (dataval, block, id)
field tuple (directory pages have no id column; 0 is carried for it).  The
dataval column is modeled for the Integer case (Constant::Int).  Reading a
slot at or beyond num_records yields the formatted default record (all
zeroes, BTreePage::format lines 149-183); reading a negative slot would
address the page header in the source and is mapped to slot 0 here (no run
considered below does either, except the benign get_data_val(slot+1) probe
of find_child_block against freshly formatted slots, which correctly reads
the zero default).  A file is the list of its blocks; Transaction::append
adds a block at the end, so a new block's number is the file's length. -/

namespace BTree

/-- The i32 minimum sentinel placed in the fresh root (btree.rs line 54). -/
def i32MIN : Int := -2147483648

/-- One B-tree record: the fields (dataval, block, id). -/
structure BTRec where
  dataval : Int
  block : Int
  id : Int
deriving DecidableEq, Repr

/-- The formatted default record: every field zero. -/
def defaultRec : BTRec := { dataval := 0, block := 0, id := 0 }

/-- One B-tree block: header flag and the records of slots
[0 .. num_records). -/
structure BTPage where
  flag : Int
  recs : List BTRec
deriving DecidableEq, Repr

def defaultPage : BTPage := { flag := 0, recs := [] }

/-- A directory entry (btree_dir_entry.rs): a dataval and a block number. -/
structure DirEntry where
  dataval : Int
  blocknum : Int
deriving DecidableEq, Repr

/-- BTreePage::get_data_val (btree_page.rs lines 205-207) on the model:
the dataval of the record at the slot, the formatted zero default beyond
num_records. -/
def getDataVal (p : BTPage) (slot : Int) : Int :=
  (p.recs.getD slot.toNat defaultRec).dataval

/-- BTreePage::find_slot_before from btree_page.rs lines 48-54: scan from
slot 0 while the slot is below num_records and its dataval is < the key;
return one less than the stopping slot. -/
def findSlotBefore (p : BTPage) (key : Int) : Int :=
  ((p.recs.takeWhile fun r => r.dataval < key).length : Int) - 1

/-- BTreePage::insert (btree_page.rs lines 113-119: shift slots
[slot .. num) up by one, increment num_records) combined with the field
writes of insert_dir / insert_leaf (lines 295-300, 310-316) that fill the
freed slot: a list insertion at index slot. -/
def insertRecAt (p : BTPage) (slot : Int) (r : BTRec) : BTPage :=
  { p with recs := p.recs.insertIdx slot.toNat r }

/-- BTreePage::slot_pos from btree_page.rs lines 284-287: two header words
then fixed-size slots. -/
def slot_pos (slotsize slot : Nat) : Nat :=
  4 + 4 + slot * slotsize

/-- BTreePage::is_full from btree_page.rs lines 63-67:
`slot_pos(num_recs + 1) >= block_size`. -/
def is_full (block_size slotsize : Nat) (p : BTPage) : Bool :=
  slot_pos slotsize (p.recs.length + 1) ≥ block_size

/-- BTreePage::split from btree_page.rs lines 69-77 with transfer_recs
(lines 99-111): append a fresh block with the given flag at the end of the
file, move the records of slots [pos .. num_records) into it, keep the
first pos records; returns the updated file and the new block's number. -/
def split (file : List BTPage) (blkIdx pos : Nat) (flag : Int) :
    List BTPage × Nat :=
  let p := file.getD blkIdx defaultPage
  let newPage : BTPage := { flag := flag, recs := p.recs.drop pos }
  let self' : BTPage := { p with recs := p.recs.take pos }
  ((file.set blkIdx self') ++ [newPage], file.length)

/-- The `while get_data_val(split_pos) == split_key { split_pos += 1 }`
loop of BTreeLeaf::insert (btree_leaf.rs lines 120-122), fueled by the
record count. -/
def advanceRight (p : BTPage) (k : Int) : Nat → Nat → Nat
  | 0, pos => pos
  | fuel + 1, pos =>
    if getDataVal p (pos : Int) = k then advanceRight p k fuel (pos + 1)
    else pos

/-- The `while get_data_val(split_pos - 1) == split_key { split_pos -= 1 }`
loop of BTreeLeaf::insert (btree_leaf.rs lines 125-127), fueled likewise. -/
def retreatLeft (p : BTPage) (k : Int) : Nat → Nat → Nat
  | 0, pos => pos
  | fuel + 1, pos =>
    if getDataVal p ((pos : Int) - 1) = k then retreatLeft p k fuel (pos - 1)
    else pos

/-- BTreeLeaf::insert from btree_leaf.rs lines 90-132.  The leaf's
current_slot is find_slot_before(search_key), set by BTreeLeaf::new (lines
28-45); BTreeIndex::insert calls insert directly after constructing the
leaf, so that is its value here.  Returns the updated leaf file and the
directory entry of a split, if any. -/
def leafInsert (block_size slotsize : Nat) (file : List BTPage)
    (blkIdx : Nat) (key ridBlock ridId : Int) :
    List BTPage × Option DirEntry :=
  let page := file.getD blkIdx defaultPage
  if page.flag ≥ 0 ∧ getDataVal page 0 > key then
    -- lines 91-99: the leaf heads an overflow chain of a larger key; split
    -- off the whole page (keeping the chain flag), clear the flag, and make
    -- the new record the sole occupant; hand the split block to the parent.
    let first_val := getDataVal page 0
    let (file1, newBlk) := split file blkIdx 0 page.flag
    let p1 := file1.getD blkIdx defaultPage
    let p2 := insertRecAt { p1 with flag := -1 } 0
      { dataval := key, block := ridBlock, id := ridId }
    (file1.set blkIdx p2, some { dataval := first_val, blocknum := newBlk })
  else
    -- lines 101-103: insert at current_slot + 1 (sorted position).
    let slot := findSlotBefore page key + 1
    let p1 := insertRecAt page slot
      { dataval := key, block := ridBlock, id := ridId }
    let file1 := file.set blkIdx p1
    if ¬ is_full block_size slotsize p1 then (file1, none)
    else
      let first_key := getDataVal p1 0
      let last_key := getDataVal p1 ((p1.recs.length : Int) - 1)
      if last_key = first_key then
        -- lines 112-115: all keys equal; split all but the first record
        -- into a new overflow block and point this leaf's flag at it.
        let (file2, newBlk) := split file1 blkIdx 1 p1.flag
        let p2 := file2.getD blkIdx defaultPage
        (file2.set blkIdx { p2 with flag := (newBlk : Int) }, none)
      else
        -- lines 117-130: split near the middle, moved off any run of
        -- equal keys, the new page getting flag -1.
        let mid := p1.recs.length / 2
        let split_key0 := getDataVal p1 (mid : Int)
        let sp :=
          if split_key0 = first_key then
            advanceRight p1 split_key0 p1.recs.length mid
          else
            retreatLeft p1 split_key0 p1.recs.length mid
        let split_key :=
          if split_key0 = first_key then getDataVal p1 (sp : Int)
          else split_key0
        let (file2, newBlk) := split file1 blkIdx sp (-1)
        (file2, some { dataval := split_key, blocknum := newBlk })

/-- BTreeDir::insert_entry from btree_dir.rs lines 71-89, at file level:
insert the entry at `find_slot_before(entry.dataval)` (the source inserts
at this slot as written, with no + 1), and if the page became full, split
it at the midpoint and return an entry for the parent. -/
def insertEntryF (block_size slotsize : Nat) (file : List BTPage)
    (blkIdx : Nat) (entry : DirEntry) : List BTPage × Option DirEntry :=
  let page := file.getD blkIdx defaultPage
  let new_slot := findSlotBefore page entry.dataval
  let p1 := insertRecAt page new_slot
    { dataval := entry.dataval, block := entry.blocknum, id := 0 }
  let file1 := file.set blkIdx p1
  if ¬ is_full block_size slotsize p1 then (file1, none)
  else
    let level := p1.flag
    let split_pos := p1.recs.length / 2
    let split_val := getDataVal p1 (split_pos : Int)
    let (file2, newBlk) := split file1 blkIdx split_pos level
    (file2, some { dataval := split_val, blocknum := newBlk })

/-- BTreeDir::find_child_block from btree_dir.rs lines 51-58: take
find_slot_before(key), advance one slot if the next slot's dataval equals
the key exactly, and read that slot's block number. -/
def findChildBlock (p : BTPage) (key : Int) : Int :=
  let slot := findSlotBefore p key
  let slot := if getDataVal p (slot + 1) = key then slot + 1 else slot
  (p.recs.getD slot.toNat defaultRec).block

/-- BTreeDir::search from btree_dir.rs lines 42-49: follow child pointers
while the current page's level flag is positive; the fuel bounds the number
of levels (the flag drops by one per descent). -/
def dirSearch : Nat → List BTPage → BTPage → Int → Int
  | 0, _, page, key => findChildBlock page key
  | fuel + 1, file, page, key =>
    let child := findChildBlock page key
    if page.flag > 0 then
      dirSearch fuel file (file.getD child.toNat defaultPage) key
    else child

/-- BTreeDir::insert from btree_dir.rs lines 91-104: at level 0 insert the
entry here; otherwise descend to the child, recurse, and insert the entry a
split hands back, if any.  The fuel bounds the recursion depth. -/
def dirInsert : Nat → Nat → Nat → List BTPage → Nat → DirEntry →
    List BTPage × Option DirEntry
  | 0, _, _, file, _, _ => (file, none)
  | fuel + 1, block_size, slotsize, file, blkIdx, entry =>
    let page := file.getD blkIdx defaultPage
    if page.flag = 0 then insertEntryF block_size slotsize file blkIdx entry
    else
      let child := findChildBlock page entry.dataval
      let (file1, myEntry) :=
        dirInsert fuel block_size slotsize file child.toNat entry
      match myEntry with
      | some e => insertEntryF block_size slotsize file1 blkIdx e
      | none => (file1, none)

/-- BTreeDir::make_new_root from btree_dir.rs lines 60-69: copy the root's
records into a freshly appended block, then insert entries for the copy and
for the new child, and raise the root's level by one (return values of the
two insert_entry calls are dropped, as in the source). -/
def makeNewRoot (block_size slotsize : Nat) (file : List BTPage)
    (child : DirEntry) : List BTPage :=
  let page := file.getD 0 defaultPage
  let first_val := getDataVal page 0
  let level := page.flag
  let (file1, newBlk) := split file 0 0 level
  let old_root : DirEntry := { dataval := first_val, blocknum := newBlk }
  let (file2, _) := insertEntryF block_size slotsize file1 0 old_root
  let (file3, _) := insertEntryF block_size slotsize file2 0 child
  let page3 := file3.getD 0 defaultPage
  file3.set 0 { page3 with flag := level + 1 }

/-- The two files of a B-tree index (btree.rs): the directory file (the
root is block 0) and the leaf file. -/
structure State where
  dirFile : List BTPage
  leafFile : List BTPage
deriving DecidableEq, Repr

/-- BTreeIndex::new on empty files (btree.rs lines 29-67), Integer keys:
one empty leaf with flag -1, and a root at level 0 holding the single
sentinel record (i32::MIN, block 0). -/
def State.init : State :=
  { dirFile := [{ flag := 0,
                  recs := [{ dataval := i32MIN, block := 0, id := 0 }] }]
    leafFile := [{ flag := -1, recs := [] }] }

/-- BTreeIndex::insert from btree.rs lines 102-129: before_first descends
from the root to the leaf for the key (lines 75-88); the leaf insert runs;
if it returns a directory entry, insert it from the root, and if that in
turn splits the root, make a new root. -/
def btInsert (block_size ssLeaf ssDir : Nat) (st : State) (key : Int)
    (ridBlock ridId : Int) : State :=
  let root := st.dirFile.getD 0 defaultPage
  let leafBlk := dirSearch st.dirFile.length st.dirFile root key
  let (leafFile', e) :=
    leafInsert block_size ssLeaf st.leafFile leafBlk.toNat key ridBlock ridId
  match e with
  | none => { st with leafFile := leafFile' }
  | some entry =>
    let (dirFile', e2) :=
      dirInsert st.dirFile.length block_size ssDir st.dirFile 0 entry
    match e2 with
    | none => { dirFile := dirFile', leafFile := leafFile' }
    | some e3 =>
      { dirFile := makeNewRoot block_size ssDir dirFile' e3
        leafFile := leafFile' }

/-- Adjacent-pairs non-decreasing test on a value list. -/
def sortedVals : List Int → Bool
  | [] => true
  | [_] => true
  | a :: b :: rest => a ≤ b && sortedVals (b :: rest)

/-- The per-page ordering invariant of the claim: the datavals of slots
[0 .. num_records) are non-decreasing in slot order. -/
def pageSorted (p : BTPage) : Prop :=
  sortedVals (p.recs.map BTRec.dataval) = true

instance (p : BTPage) : Decidable (pageSorted p) :=
  inferInstanceAs (Decidable (sortedVals (p.recs.map BTRec.dataval) = true))

end BTree

/-! ## Theorems -/

/-- C9 counterexample: search_cost does not return ⌈n / 100⌉.  The
index_mgr.rs implementation returns ⌊1 / 100⌋ = 0 ≠ 1 = ⌈1 / 100⌉ at one
block; the hash.rs implementation divides by the records-per-block argument
instead of the bucket count, returning 50 ≠ 2 = ⌈150 / 100⌉ at 150 blocks
and rpb = 3. -/
theorem C9_search_cost_counterexample :
    IndexMgr.search_cost 1 1 ≠ (1 + 100 - 1) / 100 ∧
    HashIdx.search_cost 150 3 ≠ (150 + 100 - 1) / 100 := by
  decide

/-- C9 (amended): the metadata-manager hash-index search cost is the FLOOR
of the block count divided by the bucket count 100, for every block count
and records-per-block argument (which it ignores); the hash.rs search cost
is the floor of the block count divided by the records-per-block argument;
and IndexInfo::blocks_accessed is the floor composition
⌊⌊records / rpb⌋ / 100⌋ with rpb = block_size / slotsize. -/
theorem C9_search_cost_floor (n rpb : Nat) :
    IndexMgr.search_cost n rpb = n / 100 ∧
    HashIdx.search_cost n rpb = n / rpb ∧
    ∀ bs ss recs,
      IndexMgr.blocks_accessed bs ss recs = recs / (bs / ss) / 100 := by
  exact ⟨rfl, rfl, fun bs ss recs => rfl⟩

/-- C10: a TableScan whose cursor is on no slot (current_slot is none)
returns Ok from delete() and leaves the scanned state — in particular the
block contents — completely unchanged. -/
theorem C10_delete_without_position (slotsize : Nat) (ts : TableScan.State)
    (h : ts.currentSlot = none) :
    TableScan.delete slotsize ts = .ok ts := by
  unfold TableScan.delete
  rw [h]

/-- C10 witness: the theorem at a concrete freshly opened scan. -/
theorem C10_delete_without_position_witness :
    TableScan.delete 48 { currentSlot := none, store := fun _ => 0 } =
      .ok { currentSlot := none, store := fun _ => 0 } :=
  C10_delete_without_position 48 { currentSlot := none, store := fun _ => 0 }
    rfl

/-- C1: divergence of the code from the WAL claim, evaluated at the failing
input.  A fresh buffer (lsn = -1) is modified by transaction 1 through a
logged set_i32 that receives LSN 1, yet set_modified leaves the buffer's
LSN at -1 (it only stores the LSN when the previous one was already ≥ 0),
and the subsequent flush writes the data page while the log is forced only
through LSN 0 — the SETINT record with LSN 1 is not yet on disk. -/
theorem C1_wal_divergence :
    (WAL.txSetI32Logged 1 WAL.Buffer.new WAL.LMState.init).1 = 1 ∧
    (WAL.txSetI32Logged 1 WAL.Buffer.new WAL.LMState.init).2.1.lsn = -1 ∧
    (WAL.txSetI32Logged 1 WAL.Buffer.new WAL.LMState.init).2.1.txnum = 1 ∧
    ((WAL.txSetI32Logged 1 WAL.Buffer.new WAL.LMState.init).2.1.flush
        (WAL.txSetI32Logged 1 WAL.Buffer.new WAL.LMState.init).2.2).2.2
      = true ∧
    WAL.LMState.last_saved_lsn
      ((WAL.txSetI32Logged 1 WAL.Buffer.new WAL.LMState.init).2.1.flush
        (WAL.txSetI32Logged 1 WAL.Buffer.new WAL.LMState.init).2.2).2.1
      = 0 := by
  decide

/-- C2: divergence of the code from the block round-trip claim, evaluated
at the failing input (block size 8).  A file that already exists on disk
(one zero block) is opened by FileMgrData::open_file in append mode; a page
holding i32 value 7 at offset 0 is written to block 0, but the bytes are
appended at the end of the file instead of overwriting block 0, so reading
block 0 back yields 0, not 7. -/
theorem C2_overwrite_divergence :
    FileMgr.pageGetI32
        (FileMgr.pageSetI32 (List.replicate 8 0) 0 7) 0 = 7 ∧
    (FileMgr.write 8 (FileMgr.open_file (some (List.replicate 8 0))) 0
        (FileMgr.pageSetI32 (List.replicate 8 0) 0 7)).data.length = 16 ∧
    FileMgr.pageGetI32
        (FileMgr.read 8
          (FileMgr.write 8 (FileMgr.open_file (some (List.replicate 8 0))) 0
            (FileMgr.pageSetI32 (List.replicate 8 0) 0 7)) 0) 0 = 0 := by
  decide

/-- C8: divergence of the code from the B-tree page-ordering claim,
evaluated at the failing input.  Block size 48, leaf slot size 16,
directory slot size 12 (so a leaf holds two records before splitting).
Starting from a fresh index, inserting dataval 1 at RID (0,0) and then
dataval 2 at RID (0,1) makes the leaf split and hand the entry (2, block 1)
to the root; BTreeDir::insert_entry places it at find_slot_before(2) = 0
instead of slot 1, so the root directory page ends up with datavals
[2, i32::MIN] — strictly decreasing, violating the invariant. -/
theorem C8_btree_dir_unsorted :
    ((BTree.btInsert 48 16 12
          (BTree.btInsert 48 16 12 BTree.State.init 1 0 0) 2 0 1).dirFile.getD
        0 BTree.defaultPage).recs.map BTree.BTRec.dataval
      = [2, BTree.i32MIN] ∧
    ¬ BTree.pageSorted
        ((BTree.btInsert 48 16 12
            (BTree.btInsert 48 16 12 BTree.State.init 1 0 0) 2 0
            1).dirFile.getD 0 BTree.defaultPage) := by
  decide

/-- C6: behaviour of the lock table on each block.  slock fails with a
lock-abort error while the entry is negative (the blocking condition the
wait loop checks; if it persists to the timeout the call aborts) and
otherwise increments the entry, inserting 1 when absent; xlock — called
with the caller's own slock held, so the entry is at least 1 — fails while
the entry is greater than 1 and otherwise sets the entry to -1; unlock
decrements an entry greater than 1 and otherwise removes the entry and
notifies all waiters.  Entries of other blocks are never touched. -/
theorem C6_lock_table (locks : LockTable.LockMap) (blk : BlockId) :
    (LockTable.get_lock_val locks blk < 0 →
      LockTable.slock locks blk = .error (.LockAborted blk)) ∧
    (0 ≤ LockTable.get_lock_val locks blk →
      ∃ m, LockTable.slock locks blk = .ok m ∧
        m blk = some (LockTable.get_lock_val locks blk + 1) ∧
        (locks blk = none → m blk = some 1) ∧
        ∀ b, b ≠ blk → m b = locks b) ∧
    (1 ≤ LockTable.get_lock_val locks blk →
      (1 < LockTable.get_lock_val locks blk →
        LockTable.xlock locks blk = .error (.LockAborted blk)) ∧
      (LockTable.get_lock_val locks blk = 1 →
        ∃ m, LockTable.xlock locks blk = .ok m ∧ m blk = some (-1) ∧
          ∀ b, b ≠ blk → m b = locks b)) ∧
    (1 < LockTable.get_lock_val locks blk →
      (LockTable.unlock locks blk).1 blk
          = some (LockTable.get_lock_val locks blk - 1) ∧
      (LockTable.unlock locks blk).2 = false) ∧
    (LockTable.get_lock_val locks blk ≤ 1 →
      (LockTable.unlock locks blk).1 blk = none ∧
      (LockTable.unlock locks blk).2 = true) ∧
    (∀ b, b ≠ blk → (LockTable.unlock locks blk).1 b = locks b) := by
  unfold LockTable.slock LockTable.xlock LockTable.unlock
    LockTable.has_xlock LockTable.has_other_slocks LockTable.insertL
    LockTable.removeL
  refine ⟨fun h => ?_, fun h => ?_, fun h => ⟨fun h2 => ?_, fun h2 => ?_⟩,
    fun h => ?_, fun h => ?_, fun b hb => ?_⟩
  · simp only [decide_eq_true_eq, if_pos h]
  · rw [if_neg (by simpa using not_lt.mpr h)]
    refine ⟨_, rfl, by simp, fun hnone => ?_, fun b hb => by simp [hb]⟩
    simp [LockTable.get_lock_val, hnone]
  · simp only [decide_eq_true_eq, if_pos h2]
  · rw [if_neg (by simp [h2])]
    exact ⟨_, rfl, by simp, fun b hb => by simp [hb]⟩
  · rw [if_pos (by simpa using h)]
    simp
  · rw [if_neg (by simpa using not_lt.mpr h)]
    simp
  · by_cases h1 : 1 < LockTable.get_lock_val locks blk
    · rw [if_pos (by simpa using h1)]
      simp [hb]
    · rw [if_neg (by simpa using h1)]
      simp [hb]

/-- C6 witness: the lock-table theorem applied at concrete states — a block
exclusively locked (entry -1), a block with no entry, a block with one
shared holder (entry 1), and a block with two shared holders (entry 2). -/
theorem C6_lock_table_witness :
    (LockTable.slock
        (fun b => if b = ⟨"f", 1⟩ then some (-1) else none) ⟨"f", 1⟩
      = .error (.LockAborted ⟨"f", 1⟩)) ∧
    (∃ m, LockTable.slock (fun _ => none) ⟨"f", 1⟩ = .ok m ∧
      m ⟨"f", 1⟩ = some (LockTable.get_lock_val (fun _ => none) ⟨"f", 1⟩ + 1) ∧
      ((fun _ => none : LockTable.LockMap) ⟨"f", 1⟩ = none →
        m ⟨"f", 1⟩ = some 1) ∧
      ∀ b, b ≠ ⟨"f", 1⟩ → m b = (fun _ => none : LockTable.LockMap) b) ∧
    (LockTable.xlock
        (fun b => if b = ⟨"f", 1⟩ then some 2 else none) ⟨"f", 1⟩
      = .error (.LockAborted ⟨"f", 1⟩)) ∧
    (∃ m, LockTable.xlock
        (fun b => if b = ⟨"f", 1⟩ then some 1 else none) ⟨"f", 1⟩ = .ok m ∧
      m ⟨"f", 1⟩ = some (-1) ∧
      ∀ b, b ≠ ⟨"f", 1⟩ →
        m b = (fun b => if b = ⟨"f", 1⟩ then some 1 else none :
          LockTable.LockMap) b) ∧
    ((LockTable.unlock
        (fun b => if b = ⟨"f", 1⟩ then some 2 else none) ⟨"f", 1⟩).1 ⟨"f", 1⟩
      = some (LockTable.get_lock_val
          (fun b => if b = ⟨"f", 1⟩ then some 2 else none) ⟨"f", 1⟩ - 1)) ∧
    ((LockTable.unlock
        (fun b => if b = ⟨"f", 1⟩ then some 1 else none) ⟨"f", 1⟩).1 ⟨"f", 1⟩
      = none ∧
     (LockTable.unlock
        (fun b => if b = ⟨"f", 1⟩ then some 1 else none) ⟨"f", 1⟩).2
      = true) := by
  refine ⟨(C6_lock_table _ ⟨"f", 1⟩).1 (by decide),
    (C6_lock_table _ ⟨"f", 1⟩).2.1 (by decide),
    ((C6_lock_table _ ⟨"f", 1⟩).2.2.1 (by decide)).1 (by decide),
    ((C6_lock_table _ ⟨"f", 1⟩).2.2.1 (by decide)).2 (by decide),
    ((C6_lock_table _ ⟨"f", 1⟩).2.2.2.1 (by decide)).1,
    (C6_lock_table _ ⟨"f", 1⟩).2.2.2.2.1 (by decide)⟩

namespace LogMgr

/-- One append puts its record at the front of the reverse-iteration
output, whether or not it started a new block. -/
theorem append_iterAll (bs : Nat) (st : State) (r : List Nat) :
    iterAll (append bs st r).2 = r :: iterAll st := by
  unfold append iterAll
  by_cases h : st.page.boundary - ((r.length : Int) + 4) < 4
  · simp only [if_pos h]
    simp [List.reverse_append]
  · simp [if_neg h]

/-- Appending a record list reverses it onto the reverse-iteration
output. -/
theorem appendAll_iterAll (bs : Nat) (rs : List (List Nat)) (st : State) :
    iterAll (appendAll bs st rs).2 = rs.reverse ++ iterAll st := by
  induction rs generalizing st with
  | nil => simp [appendAll]
  | cons r rs ih =>
    simp only [appendAll, List.reverse_cons, List.append_assoc]
    rw [ih, append_iterAll]
    simp

/-- Each append returns latest_lsn + 1 and leaves latest_lsn at that
value. -/
theorem append_lsn (bs : Nat) (st : State) (r : List Nat) :
    (append bs st r).1 = st.latest_lsn + 1 ∧
    (append bs st r).2.latest_lsn = st.latest_lsn + 1 := by
  unfold append
  by_cases h : st.page.boundary - ((r.length : Int) + 4) < 4
  · simp [if_pos h]
  · simp [if_neg h]

/-- appendAll on a cons, stated as projections. -/
theorem appendAll_cons (bs : Nat) (st : State) (r : List Nat)
    (rs : List (List Nat)) :
    appendAll bs st (r :: rs)
      = ((append bs st r).1 :: (appendAll bs (append bs st r).2 rs).1,
         (appendAll bs (append bs st r).2 rs).2) := rfl

/-- The LSNs a record list receives count up from latest_lsn + 1. -/
theorem appendAll_lsns (bs : Nat) (rs : List (List Nat)) (st : State) :
    (appendAll bs st rs).1
      = (List.range rs.length).map
          fun i : Nat => st.latest_lsn + ((i : Int) + 1) := by
  induction rs generalizing st with
  | nil => simp [appendAll]
  | cons r rs ih =>
    rw [appendAll_cons]
    show (append bs st r).1 :: (appendAll bs (append bs st r).2 rs).1
      = (List.range (r :: rs).length).map fun i : Nat =>
          st.latest_lsn + ((i : Int) + 1)
    rw [ih, (append_lsn bs st r).1, (append_lsn bs st r).2,
      List.length_cons, List.range_succ_eq_map]
    simp only [List.map_cons, List.map_map, Nat.cast_zero, List.cons.injEq]
    constructor
    · ring
    · apply List.map_congr_left
      intro i _
      simp only [Function.comp_apply, Nat.cast_succ]
      ring

end LogMgr

/-- C5: appending records r1 … rn to a fresh log returns the dense LSNs
1, 2, …, n; reverse iteration afterwards yields exactly rn, …, r1, crossing
block boundaries transparently; and an individual append rolls to a new
block — flushing the current page and starting a page whose boundary counts
down from the block size — exactly when boundary − (len + 4) < 4, and
otherwise packs the record below the old boundary of the same page. -/
theorem C5_log_append_reverse_iter (bs : Nat) (rs : List (List Nat))
    (hfit : ∀ r ∈ rs, r.length + 8 ≤ bs) :
    (LogMgr.appendAll bs (LogMgr.State.init bs) rs).1
        = (List.range rs.length).map (fun i : Nat => (i : Int) + 1) ∧
    LogMgr.iterAll (LogMgr.appendAll bs (LogMgr.State.init bs) rs).2
        = rs.reverse ∧
    ∀ (st : LogMgr.State) (r : List Nat),
      (LogMgr.startsNewBlock st r = true ↔
        st.page.boundary - ((r.length : Int) + 4) < 4) ∧
      (LogMgr.startsNewBlock st r = true →
        (LogMgr.append bs st r).2.olderBlocks
            = st.olderBlocks ++ [st.page] ∧
        (LogMgr.append bs st r).2.page.recs = [r] ∧
        (LogMgr.append bs st r).2.page.boundary
            = (bs : Int) - ((r.length : Int) + 4)) ∧
      (LogMgr.startsNewBlock st r = false →
        (LogMgr.append bs st r).2.olderBlocks = st.olderBlocks ∧
        (LogMgr.append bs st r).2.page.recs = r :: st.page.recs ∧
        (LogMgr.append bs st r).2.page.boundary
            = st.page.boundary - ((r.length : Int) + 4)) := by
  refine ⟨?_, ?_, ?_⟩
  · rw [LogMgr.appendAll_lsns]
    simp [LogMgr.State.init]
  · rw [LogMgr.appendAll_iterAll]
    simp [LogMgr.iterAll, LogMgr.State.init]
  · intro st r
    refine ⟨by simp [LogMgr.startsNewBlock], fun h => ?_, fun h => ?_⟩
    · have hc : st.page.boundary - ((r.length : Int) + 4) < 4 := by
        simpa [LogMgr.startsNewBlock] using h
      unfold LogMgr.append
      simp [if_pos hc]
    · have hc : ¬ st.page.boundary - ((r.length : Int) + 4) < 4 := by
        simpa [LogMgr.startsNewBlock] using h
      unfold LogMgr.append
      simp [if_neg hc]

/-- C5 witness: four records appended to a fresh 16-byte-block log receive
LSNs 1, 2, 3, 4 and come back reversed from the iterator, with the second
append rolling to a new block (boundary 9, record needs 6, 9 − 6 < 4). -/
theorem C5_log_append_reverse_iter_witness :
    (∀ r ∈ [[1, 2, 3], [4, 5], [6], [7, 8, 9]],
      List.length r + 8 ≤ 16) ∧
    (LogMgr.appendAll 16 (LogMgr.State.init 16)
        [[1, 2, 3], [4, 5], [6], [7, 8, 9]]).1
      = (List.range 4).map (fun i : Nat => (i : Int) + 1) ∧
    LogMgr.iterAll (LogMgr.appendAll 16 (LogMgr.State.init 16)
        [[1, 2, 3], [4, 5], [6], [7, 8, 9]]).2
      = [[1, 2, 3], [4, 5], [6], [7, 8, 9]].reverse := by
  refine ⟨by decide, ?_, ?_⟩
  · exact (C5_log_append_reverse_iter 16 _ (by decide)).1
  · exact (C5_log_append_reverse_iter 16 _ (by decide)).2.1

namespace RecordPage

/-- The slot at which search_after starts scanning: one past the given
slot, or 0 when none is given. -/
def startSlot : Option Int → Nat
  | some s => (s + 1).toNat
  | none => 0

/-- search_after in terms of search_from and startSlot. -/
theorem search_after_eq (bs ss : Nat) (store : Nat → Int) (flag : Int)
    (slot : Option Int) :
    search_after bs ss store flag slot
      = search_from bs ss store flag (bs + 1) (startSlot slot) := by
  cases slot <;> rfl

/-- A natural slot index is valid exactly when the following slot still
fits in the block. -/
theorem valid_iff_nat (bs ss n : Nat) :
    is_valid_slot bs ss (n : Int) = true ↔ (n + 1) * ss ≤ bs := by
  unfold is_valid_slot slot_offset
  rw [if_pos (by omega : (0 : Int) ≤ (n : Int) + 1)]
  show decide (((n : Int) + 1).toNat * ss ≤ bs) = true ↔ _
  rw [decide_eq_true_eq]
  have h : ((n : Int) + 1).toNat = n + 1 := by omega
  rw [h]

/-- Slot validity is downward closed. -/
theorem valid_mono (bs ss : Nat) {m n : Nat} (h : m ≤ n)
    (hv : is_valid_slot bs ss (n : Int) = true) :
    is_valid_slot bs ss (m : Int) = true := by
  rw [valid_iff_nat] at hv ⊢
  exact le_trans (Nat.mul_le_mul_right _ (by omega)) hv

/-- Soundness of the scan loop: a returned slot is at or after the start,
valid, carries the target flag, and no earlier candidate carried it. -/
theorem search_from_some (bs ss : Nat) (store : Nat → Int) (flag : Int) :
    ∀ fuel next n : Nat,
      search_from bs ss store flag fuel next = some n →
      next ≤ n ∧ is_valid_slot bs ss (n : Int) = true ∧
        store (n * ss) = flag ∧
        ∀ m, next ≤ m → m < n → store (m * ss) ≠ flag := by
  intro fuel
  induction fuel with
  | zero =>
    intro next n h
    simp [search_from] at h
  | succ fuel ih =>
    intro next n h
    unfold search_from at h
    by_cases hv : is_valid_slot bs ss (next : Int) = true
    · rw [if_pos hv] at h
      by_cases hf : store (next * ss) = flag
      · rw [if_pos hf] at h
        injection h with h
        subst h
        exact ⟨le_refl _, hv, hf, fun m h1 h2 => absurd h2 (by omega)⟩
      · rw [if_neg hf] at h
        obtain ⟨h1, h2, h3, h4⟩ := ih (next + 1) n h
        refine ⟨by omega, h2, h3, fun m hm1 hm2 => ?_⟩
        rcases eq_or_lt_of_le hm1 with rfl | hlt
        · exact hf
        · exact h4 m (by omega) hm2
    · rw [if_neg hv] at h
      cases h

/-- Completeness of the scan loop: with enough fuel, a none result means no
valid slot at or after the start carries the target flag. -/
theorem search_from_none (bs ss : Nat) (store : Nat → Int) (flag : Int)
    (hss : 1 ≤ ss) :
    ∀ fuel next : Nat, bs + 1 ≤ fuel + next →
      search_from bs ss store flag fuel next = none →
      ∀ m, next ≤ m → is_valid_slot bs ss (m : Int) = true →
        store (m * ss) ≠ flag := by
  intro fuel
  induction fuel with
  | zero =>
    intro next hb _ m hm hv
    rw [valid_iff_nat] at hv
    have h1 : m + 1 ≤ (m + 1) * ss := Nat.le_mul_of_pos_right _ (by omega)
    exact absurd hv (by omega)
  | succ fuel ih =>
    intro next hb hnone m hm hv
    unfold search_from at hnone
    by_cases hvn : is_valid_slot bs ss (next : Int) = true
    · rw [if_pos hvn] at hnone
      by_cases hf : store (next * ss) = flag
      · rw [if_pos hf] at hnone
        cases hnone
      · rw [if_neg hf] at hnone
        rcases eq_or_lt_of_le hm with rfl | hlt
        · exact hf
        · exact ih (next + 1) (by omega) hnone m (by omega) hv
    · exact absurd (valid_mono bs ss hm hv) hvn

end RecordPage

/-- C7: slot validity and the record-page scans.  A slot s ≥ 0 is valid
exactly when (s + 1) · slot_size ≤ block_size.  next_after returns the
smallest valid slot strictly greater than the given slot (scanning from 0
when none is given) whose flag word is Used (1), or none when no such slot
exists; insert_after likewise finds the smallest Empty (0) slot, sets its
flag to Used, touching no other offset, and returns its index, or returns
none when no empty slot is found. -/
theorem C7_record_page_scan (bs ss : Nat) (store : Nat → Int)
    (hss : 1 ≤ ss) :
    (∀ s : Int, 0 ≤ s →
      (RecordPage.is_valid_slot bs ss s = true ↔ (s.toNat + 1) * ss ≤ bs)) ∧
    (∀ s : Int, 0 ≤ s → RecordPage.startSlot (some s) = s.toNat + 1) ∧
    (∀ slot n, RecordPage.next_after bs ss store slot = some n →
      RecordPage.startSlot slot ≤ n ∧
      RecordPage.is_valid_slot bs ss (n : Int) = true ∧
      store (n * ss) = 1 ∧
      ∀ m, RecordPage.startSlot slot ≤ m → m < n → store (m * ss) ≠ 1) ∧
    (∀ slot, RecordPage.next_after bs ss store slot = none →
      ∀ m, RecordPage.startSlot slot ≤ m →
        RecordPage.is_valid_slot bs ss (m : Int) = true →
        store (m * ss) ≠ 1) ∧
    (∀ slot n st', RecordPage.insert_after bs ss store slot = some (n, st') →
      RecordPage.startSlot slot ≤ n ∧
      RecordPage.is_valid_slot bs ss (n : Int) = true ∧
      store (n * ss) = 0 ∧
      (∀ m, RecordPage.startSlot slot ≤ m → m < n → store (m * ss) ≠ 0) ∧
      st' (n * ss) = 1 ∧ ∀ o, o ≠ n * ss → st' o = store o) ∧
    (∀ slot, RecordPage.insert_after bs ss store slot = none →
      ∀ m, RecordPage.startSlot slot ≤ m →
        RecordPage.is_valid_slot bs ss (m : Int) = true →
        store (m * ss) ≠ 0) := by
  refine ⟨fun s hs => ?_, fun s hs => ?_, fun slot n h => ?_,
    fun slot h => ?_, fun slot n st' h => ?_, fun slot h => ?_⟩
  · rw [← Int.toNat_of_nonneg hs]
    exact RecordPage.valid_iff_nat bs ss s.toNat
  · show ((s + 1).toNat) = s.toNat + 1
    omega
  · rw [RecordPage.next_after, RecordPage.search_after_eq] at h
    exact RecordPage.search_from_some bs ss store 1 _ _ n h
  · rw [RecordPage.next_after, RecordPage.search_after_eq] at h
    exact RecordPage.search_from_none bs ss store 1 hss _ _ (by omega) h
  · unfold RecordPage.insert_after at h
    cases hs : RecordPage.search_after bs ss store 0 slot with
    | none => rw [hs] at h; cases h
    | some k =>
      rw [hs] at h
      injection h with h
      injection h with h1 h2
      subst h1
      subst h2
      rw [RecordPage.search_after_eq] at hs
      obtain ⟨g1, g2, g3, g4⟩ :=
        RecordPage.search_from_some bs ss store 0 _ _ k hs
      refine ⟨g1, g2, g3, g4, ?_, ?_⟩
      · simp [RecordPage.set_flag]
      · intro o ho
        simp [RecordPage.set_flag, ho]
  · unfold RecordPage.insert_after at h
    cases hs : RecordPage.search_after bs ss store 0 slot with
    | none =>
      rw [RecordPage.search_after_eq] at hs
      exact RecordPage.search_from_none bs ss store 0 hss _ _ (by omega) hs
    | some k => rw [hs] at h; cases h

/-- C7 witness: block size 8, slot size 2 (valid slots 0..3), flags Used at
slots 0 and 2, Empty at 1 and 3: the validity criterion at slot 3,
next_after(0) finding slot 2, and insert_after(0) finding and marking
slot 1. -/
theorem C7_record_page_scan_witness :
    (RecordPage.is_valid_slot 8 2 (3 : Int) = true ↔
      ((3 : Int).toNat + 1) * 2 ≤ 8) ∧
    (RecordPage.startSlot (some 0) ≤ 2 ∧
      RecordPage.is_valid_slot 8 2 ((2 : Nat) : Int) = true ∧
      (fun o => if o = 0 then 1 else if o = 4 then 1 else (0 : Int)) (2 * 2)
        = 1 ∧
      ∀ m, RecordPage.startSlot (some 0) ≤ m → m < 2 →
        (fun o => if o = 0 then 1 else if o = 4 then 1 else (0 : Int)) (m * 2)
          ≠ 1) ∧
    (RecordPage.startSlot (some 0) ≤ 1 ∧
      RecordPage.is_valid_slot 8 2 ((1 : Nat) : Int) = true ∧
      (fun o => if o = 0 then 1 else if o = 4 then 1 else (0 : Int)) (1 * 2)
        = 0 ∧
      (∀ m, RecordPage.startSlot (some 0) ≤ m → m < 1 →
        (fun o => if o = 0 then 1 else if o = 4 then 1 else (0 : Int)) (m * 2)
          ≠ 0) ∧
      RecordPage.set_flag 2
          (fun o => if o = 0 then 1 else if o = 4 then 1 else (0 : Int)) 1 1
          (1 * 2) = 1 ∧
      ∀ o, o ≠ 1 * 2 →
        RecordPage.set_flag 2
          (fun o => if o = 0 then 1 else if o = 4 then 1 else (0 : Int)) 1 1 o
        = (fun o => if o = 0 then 1 else if o = 4 then 1 else (0 : Int)) o) :=
  ⟨(C7_record_page_scan 8 2
      (fun o => if o = 0 then 1 else if o = 4 then 1 else (0 : Int))
      (by decide)).1 3 (by decide),
   (C7_record_page_scan 8 2
      (fun o => if o = 0 then 1 else if o = 4 then 1 else (0 : Int))
      (by decide)).2.2.1 (some 0) 2 (by decide),
   (C7_record_page_scan 8 2
      (fun o => if o = 0 then 1 else if o = 4 then 1 else (0 : Int))
      (by decide)).2.2.2.2.1 (some 0) 1
      (RecordPage.set_flag 2
        (fun o => if o = 0 then 1 else if o = 4 then 1 else (0 : Int)) 1 1)
      rfl⟩

namespace Recovery

/-- Apply one event's store effect: a write updates the location, a finish
changes nothing. -/
def applyEv (σ : Store) : Event → Store
  | .write _ loc v => fun l => if l = loc then v else σ l
  | .finish _ _ => σ

/-- The log record one event appends, given the store at that moment. -/
def recOf (σ : Store) : Event → LogRec
  | .write t loc _ => .setVal t loc (σ loc)
  | .finish t c => if c then .commit t else .rollbackR t

/-- Selective undo: fold over a record list (in the given order), undoing
exactly the records whose txnum satisfies the predicate. -/
def undoSel (P : Int → Bool) (σ : Store) : List LogRec → Store
  | [] => σ
  | r :: rest => undoSel P (if P r.txNumber then r.undo σ else σ) rest

theorem runEvents_nil (σ : Store) : runEvents σ [] = (σ, []) := rfl

theorem runEvents_write (σ : Store) (t : Int) (loc : Loc) (v : Val)
    (es : List Event) :
    runEvents σ (.write t loc v :: es)
      = ((runEvents (applyEv σ (.write t loc v)) es).1,
         .setVal t loc (σ loc)
           :: (runEvents (applyEv σ (.write t loc v)) es).2) := rfl

theorem runEvents_finish (σ : Store) (t : Int) (c : Bool)
    (es : List Event) :
    runEvents σ (.finish t c :: es)
      = ((runEvents σ es).1,
         (if c then LogRec.commit t else LogRec.rollbackR t)
           :: (runEvents σ es).2) := rfl

theorem runEvents_cons (σ : Store) (e : Event) (es : List Event) :
    runEvents σ (e :: es)
      = ((runEvents (applyEv σ e) es).1,
         recOf σ e :: (runEvents (applyEv σ e) es).2) := by
  cases e with
  | write t loc v => exact runEvents_write σ t loc v es
  | finish t c => exact runEvents_finish σ t c es

/-- runEvents splits over list concatenation. -/
theorem runEvents_append (σ : Store) (es1 es2 : List Event) :
    runEvents σ (es1 ++ es2)
      = ((runEvents (runEvents σ es1).1 es2).1,
         (runEvents σ es1).2 ++ (runEvents (runEvents σ es1).1 es2).2) := by
  induction es1 generalizing σ with
  | nil => simp [runEvents_nil]
  | cons e es ih =>
    rw [List.cons_append, runEvents_cons, runEvents_cons, ih]
    rfl

/-- The generated log holds no START record. -/
theorem runEvents_no_start (σ : Store) (evs : List Event) (t : Int) :
    ∀ r ∈ (runEvents σ evs).2, r ≠ .start t := by
  induction evs generalizing σ with
  | nil => simp [runEvents_nil]
  | cons e es ih =>
    rw [runEvents_cons]
    intro r hr
    rcases List.mem_cons.mp hr with rfl | hmem
    · cases e with
      | write t' loc v => simp [recOf]
      | finish t' c =>
        simp only [recOf]
        by_cases hc : c = true
        · simp [hc]
        · simp [hc]
    · exact ih (applyEv σ e) r hmem

/-- undoSel splits over list concatenation. -/
theorem undoSel_append (P : Int → Bool) (σ : Store) (l1 l2 : List LogRec) :
    undoSel P σ (l1 ++ l2) = undoSel P (undoSel P σ l1) l2 := by
  induction l1 generalizing σ with
  | nil => rfl
  | cons r l ih =>
    rw [List.cons_append]
    show undoSel P (if P r.txNumber then r.undo σ else σ) (l ++ l2) = _
    rw [ih]
    rfl

/-- undoSel only looks at the predicate pointwise. -/
theorem undoSel_congr {P Q : Int → Bool} (h : ∀ t, P t = Q t) (σ : Store)
    (l : List LogRec) : undoSel P σ l = undoSel Q σ l := by
  induction l generalizing σ with
  | nil => rfl
  | cons r rest ih => simp only [undoSel, h, ih]

/-- Core undo-log lemma: undoing, newest first, exactly the generated
records whose txnum satisfies P restores each location to the value it held
immediately before the first P-write to it, and leaves locations with no
P-write at their final value. -/
theorem undoSel_runEvents (P : Int → Bool) :
    ∀ (evs : List Event) (σ : Store) (loc : Loc),
      undoSel P (runEvents σ evs).1 ((runEvents σ evs).2).reverse loc
        = (firstPWrite P σ loc evs).getD ((runEvents σ evs).1 loc) := by
  intro evs
  induction evs with
  | nil => intro σ loc; simp [runEvents_nil, undoSel, firstPWrite]
  | cons e es ih =>
    intro σ loc
    rw [runEvents_cons]
    simp only [List.reverse_cons]
    rw [undoSel_append]
    cases e with
    | write t l v =>
      show undoSel P
          (if P (LogRec.setVal t l (σ l)).txNumber
            then (LogRec.setVal t l (σ l)).undo
              (undoSel P (runEvents (applyEv σ (.write t l v)) es).1
                ((runEvents (applyEv σ (.write t l v)) es).2).reverse)
            else undoSel P (runEvents (applyEv σ (.write t l v)) es).1
              ((runEvents (applyEv σ (.write t l v)) es).2).reverse) [] loc
        = _
      simp only [LogRec.txNumber, undoSel]
      by_cases hp : P t = true
      · rw [if_pos hp]
        by_cases hl : l = loc
        · subst hl
          show (if l = l then σ l else _) = _
          simp [firstPWrite, hp]
        · have hne : loc ≠ l := fun h => hl h.symm
          show (if loc = l then σ l
            else undoSel P (runEvents (applyEv σ (.write t l v)) es).1
              ((runEvents (applyEv σ (.write t l v)) es).2).reverse loc) = _
          rw [if_neg hne, ih]
          simp [firstPWrite, hl, applyEv]
      · rw [if_neg hp]
        rw [ih]
        simp [firstPWrite, hp, applyEv]
    | finish t c =>
      cases c with
      | true =>
        show undoSel P
            (if P (LogRec.commit t).txNumber
              then (LogRec.commit t).undo
                (undoSel P (runEvents (applyEv σ (.finish t true)) es).1
                  ((runEvents (applyEv σ (.finish t true)) es).2).reverse)
              else undoSel P (runEvents (applyEv σ (.finish t true)) es).1
                ((runEvents (applyEv σ (.finish t true)) es).2).reverse) []
            loc = _
        simp only [LogRec.undo, undoSel, ite_self]
        rw [ih]
        rfl
      | false =>
        show undoSel P
            (if P (LogRec.rollbackR t).txNumber
              then (LogRec.rollbackR t).undo
                (undoSel P (runEvents (applyEv σ (.finish t false)) es).1
                  ((runEvents (applyEv σ (.finish t false)) es).2).reverse)
              else undoSel P (runEvents (applyEv σ (.finish t false)) es).1
                ((runEvents (applyEv σ (.finish t false)) es).2).reverse) []
            loc = _
        simp only [LogRec.undo, undoSel, ite_self]
        rw [ih]
        rfl

/-- runEvents on a single event. -/
theorem runEvents_single (σ : Store) (e : Event) :
    runEvents σ [e] = (applyEv σ e, [recOf σ e]) := by
  rw [runEvents_cons]
  rfl

theorem finishedTxns_append (es1 es2 : List Event) :
    finishedTxns (es1 ++ es2) = finishedTxns es1 ++ finishedTxns es2 := by
  induction es1 with
  | nil => rfl
  | cons e es ih => cases e <;> simp [finishedTxns, ih]

/-- Dropping the last event preserves well-formedness. -/
theorem WF_drop_last : ∀ (es : List Event) (e : Event), WF (es ++ [e]) → WF es := by
  intro es e
  induction es with
  | nil => intro _; trivial
  | cons e' es ih =>
    cases e' with
    | write t l v => exact fun h => ih h
    | finish t c =>
      rintro ⟨hmem, hwf⟩
      exact ⟨fun l v hin => hmem l v (List.mem_append_left _ hin), ih hwf⟩

/-- In a well-formed list ending in a write, the writer has no earlier
finish. -/
theorem WF_last_write_not_finished :
    ∀ (es : List Event) (t : Int) (l : Loc) (v : Val),
      WF (es ++ [.write t l v]) → t ∉ finishedTxns es := by
  intro es t l v
  induction es with
  | nil => intro _; simp [finishedTxns]
  | cons e' es ih =>
    cases e' with
    | write t' l' v' =>
      intro h
      exact ih h
    | finish t' c =>
      rintro ⟨hmem, hwf⟩
      simp only [finishedTxns, List.mem_cons, not_or]
      refine ⟨?_, ih hwf⟩
      intro ht
      subst ht
      exact hmem l v (List.mem_append_right _ (by simp))

theorem doRollbackLoop_start (txnum : Int) (σ : Store)
    (rest : List LogRec) :
    doRollbackLoop txnum σ (.start txnum :: rest) = σ := by
  unfold doRollbackLoop
  rw [if_pos (by simp [LogRec.txNumber]), if_pos rfl]

/-- Processing the reversed post-START records of the log and stopping at
this transaction's START equals selectively undoing this transaction's
records. -/
theorem doRollbackLoop_reduce (txnum : Int) :
    ∀ (L : List LogRec), (∀ r ∈ L, r ≠ .start txnum) →
      ∀ (σ : Store) (rest : List LogRec),
        doRollbackLoop txnum σ (L ++ .start txnum :: rest)
          = undoSel (fun t => t == txnum) σ L := by
  intro L
  induction L with
  | nil =>
    intro _ σ rest
    rw [List.nil_append]
    exact doRollbackLoop_start txnum σ rest
  | cons r L ih =>
    intro hL σ rest
    rw [List.cons_append]
    show (if r.txNumber = txnum then
        if r = .start txnum then σ
        else doRollbackLoop txnum (r.undo σ) (L ++ .start txnum :: rest)
      else doRollbackLoop txnum σ (L ++ .start txnum :: rest)) = _
    have hmemL : ∀ x ∈ L, x ≠ .start txnum :=
      fun x hx => hL x (List.mem_cons_of_mem _ hx)
    by_cases ht : r.txNumber = txnum
    · rw [if_pos ht, if_neg (hL r (List.mem_cons_self _ _)), ih hmemL]
      show _ = undoSel (fun t => t == txnum)
        (if (r.txNumber == txnum) then r.undo σ else σ) L
      rw [if_pos (by simp [ht])]
    · rw [if_neg ht, ih hmemL]
      show _ = undoSel (fun t => t == txnum)
        (if (r.txNumber == txnum) then r.undo σ else σ) L
      rw [if_neg (by simp [ht])]

theorem doRecoverLoop_checkpoint (σ : Store) (F : List Int)
    (rest : List LogRec) :
    doRecoverLoop σ F (.checkpoint :: rest) = σ := rfl

theorem doRecoverLoop_commit (σ : Store) (F : List Int) (t : Int)
    (rest : List LogRec) :
    doRecoverLoop σ F (.commit t :: rest)
      = doRecoverLoop σ (t :: F) rest := rfl

theorem doRecoverLoop_rollbackR (σ : Store) (F : List Int) (t : Int)
    (rest : List LogRec) :
    doRecoverLoop σ F (.rollbackR t :: rest)
      = doRecoverLoop σ (t :: F) rest := rfl

theorem doRecoverLoop_setVal (σ : Store) (F : List Int) (t : Int) (loc : Loc)
    (old : Val) (rest : List LogRec) :
    doRecoverLoop σ F (.setVal t loc old :: rest)
      = if t ∈ F then doRecoverLoop σ F rest
        else doRecoverLoop ((LogRec.setVal t loc old).undo σ) F rest := rfl

/-- Processing the reversed records generated by a well-formed event list
and stopping at the CHECKPOINT below them equals selectively undoing the
records of transactions that neither were already in the finished set nor
finish anywhere in the events. -/
theorem doRecoverLoop_reduce (σ : Store) :
    ∀ (evs : List Event), WF evs →
      ∀ (τ : Store) (F : List Int) (rest : List LogRec),
        doRecoverLoop τ F
            (((runEvents σ evs).2).reverse ++ .checkpoint :: rest)
          = undoSel (fun t => decide (t ∉ F ∧ t ∉ finishedTxns evs)) τ
              ((runEvents σ evs).2).reverse := by
  intro evs
  induction evs using List.reverseRecOn with
  | nil =>
    intro _ τ F rest
    rw [runEvents_nil]
    exact doRecoverLoop_checkpoint τ F rest
  | append_singleton es e ih =>
    intro hwf τ F rest
    rw [runEvents_append, runEvents_single]
    simp only [List.reverse_append, List.reverse_cons, List.reverse_nil,
      List.nil_append, List.singleton_append, List.cons_append]
    have hwf' : WF es := WF_drop_last es e hwf
    cases e with
    | finish t c =>
      have hfins : finishedTxns (es ++ [.finish t c])
          = finishedTxns es ++ [t] := by
        rw [finishedTxns_append]
        rfl
      have hcongr : ∀ u : Int,
          decide (u ∉ (t :: F) ∧ u ∉ finishedTxns es)
            = decide (u ∉ F ∧ u ∉ finishedTxns (es ++ [.finish t c])) := by
        intro u
        rw [hfins]
        apply decide_eq_decide.mpr
        simp only [List.mem_cons, List.mem_append, List.mem_singleton,
          not_or]
        tauto
      cases c with
      | true =>
        show doRecoverLoop τ F (.commit t :: _) = _
        rw [doRecoverLoop_commit, ih hwf' τ (t :: F) rest]
        show _ = undoSel _
          (if decide (t ∉ F ∧ t ∉ finishedTxns (es ++ [.finish t true]))
            then (LogRec.commit t).undo τ else τ)
          ((runEvents σ es).2).reverse
        rw [undoSel_congr hcongr]
        show _ = undoSel _ (if _ then τ else τ) _
        rw [ite_self]
      | false =>
        show doRecoverLoop τ F (.rollbackR t :: _) = _
        rw [doRecoverLoop_rollbackR, ih hwf' τ (t :: F) rest]
        show _ = undoSel _
          (if decide (t ∉ F ∧ t ∉ finishedTxns (es ++ [.finish t false]))
            then (LogRec.rollbackR t).undo τ else τ)
          ((runEvents σ es).2).reverse
        rw [undoSel_congr hcongr]
        show _ = undoSel _ (if _ then τ else τ) _
        rw [ite_self]
    | write t l v =>
      have hfins : finishedTxns (es ++ [.write t l v]) = finishedTxns es := by
        rw [finishedTxns_append]
        simp [finishedTxns]
      have hcongr : ∀ u : Int,
          decide (u ∉ F ∧ u ∉ finishedTxns es)
            = decide (u ∉ F ∧ u ∉ finishedTxns (es ++ [.write t l v])) := by
        intro u
        rw [hfins]
      show doRecoverLoop τ F
          (.setVal t l ((runEvents σ es).1 l) :: _) = _
      rw [doRecoverLoop_setVal]
      show _ = undoSel _
        (if decide (t ∉ F ∧ t ∉ finishedTxns (es ++ [.write t l v]))
          then (LogRec.setVal t l ((runEvents σ es).1 l)).undo τ else τ)
        ((runEvents σ es).2).reverse
      by_cases hF : t ∈ F
      · rw [if_pos hF, ih hwf' τ F rest, undoSel_congr hcongr]
        rw [if_neg (by simp [hF])]
      · have hnotfin : t ∉ finishedTxns es :=
          WF_last_write_not_finished es t l v hwf
        rw [if_neg hF,
          ih hwf' ((LogRec.setVal t l ((runEvents σ es).1 l)).undo τ) F rest,
          undoSel_congr hcongr]
        rw [if_pos (by rw [hfins]; exact decide_eq_true (by exact ⟨hF, hnotfin⟩))]

end Recovery

/-- C3: rollback restores the pre-transaction state.  For any transaction
txnum whose START record is followed in the log by the records of an
arbitrary interleaving of logged writes (its own and other transactions')
and of other transactions' COMMIT/ROLLBACK records, rollback() leaves every
(block, offset) this transaction wrote holding exactly the value the store
held immediately before this transaction's first write to that offset, and
every other location at its current value; the records below this
transaction's START (the arbitrary pre list) are never reached — the
reverse sweep undoes only records bearing this txnum and stops at START —
and a ROLLBACK record is appended to the log. -/
theorem C3_rollback_restores (txnum : Int) (σ : Recovery.Store)
    (evs : List Recovery.Event) (pre : List Recovery.LogRec) :
    (∀ loc,
      (Recovery.rollback txnum (Recovery.runEvents σ evs).1
          (pre ++ .start txnum :: (Recovery.runEvents σ evs).2)).1 loc
        = (Recovery.firstPWrite (fun t => t == txnum) σ loc evs).getD
            ((Recovery.runEvents σ evs).1 loc)) ∧
    (Recovery.rollback txnum (Recovery.runEvents σ evs).1
        (pre ++ .start txnum :: (Recovery.runEvents σ evs).2)).2
      = (pre ++ .start txnum :: (Recovery.runEvents σ evs).2)
          ++ [.rollbackR txnum] := by
  constructor
  · intro loc
    show Recovery.doRollbackLoop txnum (Recovery.runEvents σ evs).1
        ((pre ++ .start txnum :: (Recovery.runEvents σ evs).2).reverse) loc
      = _
    rw [List.reverse_append, List.reverse_cons, List.append_assoc,
      List.singleton_append]
    rw [Recovery.doRollbackLoop_reduce txnum _
      (fun r hr => Recovery.runEvents_no_start σ evs txnum r
        (List.mem_reverse.mp hr)) _ _]
    rw [Recovery.undoSel_runEvents]
  · rfl

/-- C4: recovery undoes exactly the unfinished transactions.  For any
well-formed interleaving of logged writes and COMMIT/ROLLBACK records above
the latest CHECKPOINT (well-formed: no transaction writes after its own
finish record), recover() iterates the log in reverse, never descending
below the CHECKPOINT (the arbitrary pre list is unreachable), and leaves
every location at the value it held immediately before the first write to
it by a transaction with no COMMIT/ROLLBACK in the log — in particular a
location written only by finished transactions keeps its current value —
and then appends a CHECKPOINT record to the log. -/
theorem C4_recover_undoes_unfinished (σ : Recovery.Store)
    (evs : List Recovery.Event) (pre : List Recovery.LogRec)
    (hwf : Recovery.WF evs) :
    (∀ loc,
      (Recovery.recover (Recovery.runEvents σ evs).1
          (pre ++ .checkpoint :: (Recovery.runEvents σ evs).2)).1 loc
        = (Recovery.firstPWrite
              (fun t => decide (t ∉ Recovery.finishedTxns evs)) σ loc
              evs).getD ((Recovery.runEvents σ evs).1 loc)) ∧
    (Recovery.recover (Recovery.runEvents σ evs).1
        (pre ++ .checkpoint :: (Recovery.runEvents σ evs).2)).2
      = (pre ++ .checkpoint :: (Recovery.runEvents σ evs).2)
          ++ [.checkpoint] := by
  constructor
  · intro loc
    show Recovery.doRecoverLoop (Recovery.runEvents σ evs).1 []
        ((pre ++ .checkpoint :: (Recovery.runEvents σ evs).2).reverse) loc
      = _
    rw [List.reverse_append, List.reverse_cons, List.append_assoc,
      List.singleton_append]
    rw [Recovery.doRecoverLoop_reduce σ evs hwf _ [] _]
    rw [Recovery.undoSel_congr
      (fun u => by
        apply decide_eq_decide.mpr
        simp : ∀ u : Int,
          decide (u ∉ ([] : List Int) ∧ u ∉ Recovery.finishedTxns evs)
            = decide (u ∉ Recovery.finishedTxns evs))]
    rw [Recovery.undoSel_runEvents]
  · rfl

/-- C4 witness: store with two locations, transaction 1 writes location A
(value 10 over 0) and never finishes, transaction 2 writes location B
(value 20 over 0) and commits; recover restores A to 0 and leaves B at 20,
and appends a CHECKPOINT. -/
theorem C4_recover_undoes_unfinished_witness :
    (Recovery.recover
        (Recovery.runEvents (fun _ => .i 0)
          [.write 1 ⟨⟨"f", 0⟩, 0⟩ (.i 10),
           .write 2 ⟨⟨"f", 0⟩, 4⟩ (.i 20),
           .finish 2 true]).1
        ([] ++ .checkpoint :: (Recovery.runEvents (fun _ => .i 0)
          [.write 1 ⟨⟨"f", 0⟩, 0⟩ (.i 10),
           .write 2 ⟨⟨"f", 0⟩, 4⟩ (.i 20),
           .finish 2 true]).2)).1 ⟨⟨"f", 0⟩, 0⟩
      = (Recovery.firstPWrite
          (fun t => decide
            (t ∉ Recovery.finishedTxns
              [.write 1 ⟨⟨"f", 0⟩, 0⟩ (.i 10),
               .write 2 ⟨⟨"f", 0⟩, 4⟩ (.i 20),
               .finish 2 true]))
          (fun _ => .i 0) ⟨⟨"f", 0⟩, 0⟩
          [.write 1 ⟨⟨"f", 0⟩, 0⟩ (.i 10),
           .write 2 ⟨⟨"f", 0⟩, 4⟩ (.i 20),
           .finish 2 true]).getD
          ((Recovery.runEvents (fun _ => .i 0)
            [.write 1 ⟨⟨"f", 0⟩, 0⟩ (.i 10),
             .write 2 ⟨⟨"f", 0⟩, 4⟩ (.i 20),
             .finish 2 true]).1 ⟨⟨"f", 0⟩, 0⟩) ∧
    (Recovery.firstPWrite
        (fun t => decide
          (t ∉ Recovery.finishedTxns
            [.write 1 ⟨⟨"f", 0⟩, 0⟩ (.i 10),
             .write 2 ⟨⟨"f", 0⟩, 4⟩ (.i 20),
             .finish 2 true]))
        (fun _ => .i 0) ⟨⟨"f", 0⟩, 0⟩
        [.write 1 ⟨⟨"f", 0⟩, 0⟩ (.i 10),
         .write 2 ⟨⟨"f", 0⟩, 4⟩ (.i 20),
         .finish 2 true]) = some (.i 0) ∧
    (Recovery.firstPWrite
        (fun t => decide
          (t ∉ Recovery.finishedTxns
            [.write 1 ⟨⟨"f", 0⟩, 0⟩ (.i 10),
             .write 2 ⟨⟨"f", 0⟩, 4⟩ (.i 20),
             .finish 2 true]))
        (fun _ => .i 0) ⟨⟨"f", 0⟩, 4⟩
        [.write 1 ⟨⟨"f", 0⟩, 0⟩ (.i 10),
         .write 2 ⟨⟨"f", 0⟩, 4⟩ (.i 20),
         .finish 2 true]) = none :=
  ⟨(C4_recover_undoes_unfinished (fun _ => .i 0)
      [.write 1 ⟨⟨"f", 0⟩, 0⟩ (.i 10),
       .write 2 ⟨⟨"f", 0⟩, 4⟩ (.i 20),
       .finish 2 true] []
      (by
        exact ⟨fun l v => List.not_mem_nil _, trivial⟩)).1 ⟨⟨"f", 0⟩, 0⟩,
   by decide, by decide⟩

end SimpleDB
